import Mathlib

/-!
Verification of the 99tech-challenge repository against its specification.

The development shallowly embeds three parts of the repository:

* `SumToN` — the three `sum_to_n` implementations (problem 4).
* `Scoreboard` — the score update / leaderboard subsystem of the problem 6
  design document: the `POST /api/v1/scores/update` handler (distributed
  lock + duplicate check + insert/update transaction), the
  `actionRateLimit` middleware, and the leaderboard ordering.  Machine
  integers are modelled as `Int`/`Nat`; timestamps as `Nat` logical times.
* `UserApi` / `AuthMw` — the problem 5 Express controllers and the
  `authenticateToken` middleware, with responses modelled as JSON trees.
-/

namespace SumToN

/-- Embedding of `sum_to_n_a`:
`if (n === 0) return 0; if (n === 1) return 1; return n + sum_to_n_a(n - 1)`.
The claim restricts attention to nonnegative safely-representable inputs,
so the number type is modelled as `Nat`. -/
def sum_to_n_a : Nat → Nat
  | 0 => 0
  | 1 => 1
  | n + 2 => (n + 2) + sum_to_n_a (n + 1)

/-- Embedding of `sum_to_n_b`: the JS array `sum` with `sum[0] = 0`,
`sum[1] = 1`, a loop `for (let i = 2; i <= n; i++) sum[i] = sum[i-1] + i`
(each write `sum[i]` appends, since `i` is always the current length),
returning `sum[n]`. -/
def sum_to_n_b (n : Nat) : Nat :=
  let sum : List Nat := [0, 1]
  let sum := (List.range' 2 (n - 1)).foldl (fun a i => a ++ [a.getD (i - 1) 0 + i]) sum
  sum.getD n 0

/-- Embedding of `sum_to_n_c`: `(n * (n + 1)) / 2` (exact, as the product is
even). -/
def sum_to_n_c (n : Nat) : Nat :=
  (n * (n + 1)) / 2

theorem two_mul_sum_to_n_c (n : Nat) : 2 * sum_to_n_c n = n * (n + 1) := by
  have h : 2 ∣ n * (n + 1) := (Nat.even_mul_succ_self n).two_dvd
  simpa [sum_to_n_c, Nat.mul_comm] using Nat.div_mul_cancel h

theorem sum_to_n_c_succ (n : Nat) : sum_to_n_c (n + 1) = sum_to_n_c n + (n + 1) := by
  have h1 := two_mul_sum_to_n_c n
  have h2 := two_mul_sum_to_n_c (n + 1)
  have hexp : (n + 1) * (n + 1 + 1) = n * (n + 1) + 2 * (n + 1) := by ring
  omega

theorem sum_to_n_a_eq (n : Nat) : sum_to_n_a n = sum_to_n_c n := by
  induction n with
  | zero => rfl
  | succ m ih =>
    match m, ih with
    | 0, _ => rfl
    | k + 1, ih =>
      rw [sum_to_n_a, sum_to_n_c_succ, ← ih]
      omega

theorem sum_to_n_b_fold (m : Nat) :
    ∀ i ≥ 2, ∀ a : List Nat, a = (List.range i).map sum_to_n_c →
      (List.range' i m).foldl (fun a j => a ++ [a.getD (j - 1) 0 + j]) a
        = (List.range (i + m)).map sum_to_n_c := by
  induction m with
  | zero => intro i _ a ha; simpa using ha
  | succ k ih =>
    intro i hi a ha
    rw [List.range'_succ, List.foldl_cons]
    have hlen : a.length = i := by simp [ha]
    have hget : a.getD (i - 1) 0 = sum_to_n_c (i - 1) := by
      subst ha
      rw [List.getD_eq_getElem?_getD]
      have hlt : i - 1 < ((List.range i).map sum_to_n_c).length := by
        simp; omega
      rw [List.getElem?_eq_getElem hlt]
      simp
    have hstep : a ++ [a.getD (i - 1) 0 + i] = (List.range (i + 1)).map sum_to_n_c := by
      rw [hget, ha, List.range_succ, List.map_append]
      have : sum_to_n_c (i - 1) + i = sum_to_n_c i := by
        have := sum_to_n_c_succ (i - 1)
        have hi1 : i - 1 + 1 = i := by omega
        rw [hi1] at this
        omega
      simp [this]
    have := ih (i + 1) (by omega) _ hstep
    rw [this]
    have harith : i + 1 + k = i + (k + 1) := by omega
    rw [harith]

theorem sum_to_n_b_eq (n : Nat) : sum_to_n_b n = sum_to_n_c n := by
  unfold sum_to_n_b
  match n with
  | 0 => rfl
  | 1 => rfl
  | m + 2 =>
    have hinit : ([0, 1] : List Nat) = (List.range 2).map sum_to_n_c := by rfl
    have h := sum_to_n_b_fold (m + 2 - 1) 2 (by omega) [0, 1] hinit
    simp only [h]
    have h2 : 2 + (m + 2 - 1) = m + 3 := by omega
    rw [h2]
    rw [List.getD_eq_getElem?_getD]
    have hlt : m + 2 < ((List.range (m + 3)).map sum_to_n_c).length := by simp
    rw [List.getElem?_eq_getElem hlt]
    simp

/-- C8: the three `sum_to_n` implementations agree, and all return
`n * (n + 1) / 2`, for every nonnegative integer `n`. -/
theorem sum_to_n_all_eq (n : Nat) :
    sum_to_n_a n = n * (n + 1) / 2 ∧ sum_to_n_b n = n * (n + 1) / 2 ∧
      sum_to_n_c n = n * (n + 1) / 2 :=
  ⟨sum_to_n_a_eq n, sum_to_n_b_eq n, rfl⟩

end SumToN

namespace Scoreboard

/-! ## Data model

Translated from the problem 6 design document: the `actions` and `scores`
tables, the Redis lock keys `action_lock:userId:actionId`, and the Redis
rate counters `rate_limit:actionType:userId`.  Identifiers are strings, as
in the source; timestamps (`new Date()`) are `Nat` logical times carried in
the request. -/

abbrev ActionId := String
abbrev UserId := String
abbrev ActionType := String

/-- A committed row of the `actions` table, as inserted by
`INSERT INTO actions (action_id, user_id, action_type, score_value,
action_timestamp)`. -/
structure ActionRecord where
  action_id : ActionId
  user_id : UserId
  action_type : ActionType
  score_value : Int
  action_timestamp : Nat
  deriving DecidableEq

/-- The per-user row of the `scores` table (keyed by `user_id`, which is the
argument of the `scores` map below); `current_score INT DEFAULT 0`,
`total_actions INT DEFAULT 0`. -/
structure ScoreRow where
  current_score : Int
  total_actions : Nat
  last_action_at : Option Nat
  deriving DecidableEq

/-- The transactional store: the `actions` table and the `scores` table
(one row per user, defaulting to score 0). -/
structure Db where
  actions : List ActionRecord
  scores : UserId → ScoreRow

/-- Full service state: database plus the Redis-backed advisory locks
(`action_lock:userId:actionId`) and rate-window counters
(`rate_limit:actionType:userId`, absent keys read as 0). -/
structure SysState where
  db : Db
  locks : UserId → ActionId → Bool
  counters : ActionType → UserId → Nat

/-- The body of `POST /api/v1/scores/update` (the verified `userId` is
passed separately, as `req.user.id`); `now` models `new Date()`. -/
structure UpdateRequest where
  actionId : ActionId
  actionType : ActionType
  scoreIncrement : Int
  now : Nat

/-- Outcome of a score-update submission, by response shape:
200 success, 400 `INVALID_ACTION_TYPE`, 429 `ACTION_RATE_LIMIT`,
409 `CONCURRENT_REQUEST`, 409 `DUPLICATE_ACTION`, and the spec's
`ValidationFailed` (`SCORE_001`). -/
inductive UpdateResult where
  | committed (newScore : Int)
  | invalidActionType
  | rateLimited
  | lockContended
  | duplicate
  | validationFailed
  deriving DecidableEq

/-- `SELECT id FROM actions WHERE action_id = $1 AND user_id = $2` —
the duplicate-action existence check, filtered by action id AND user id. -/
def hasAction (db : Db) (aid : ActionId) (uid : UserId) : Bool :=
  db.actions.any fun a => a.action_id == aid && a.user_id == uid

/-- `INSERT INTO actions ...` under the primary DDL
`CREATE UNIQUE INDEX idx_actions_unique_per_user ON actions(action_id, user_id)`
(the design document lists a global `unique_action_id` constraint only as an
"Alternative"); `none` models a unique-constraint violation. -/
def insertAction (db : Db) (rec : ActionRecord) : Option Db :=
  if hasAction db rec.action_id rec.user_id then none
  else some { db with actions := rec :: db.actions }

/-- `UPDATE scores SET current_score = current_score + $1,
total_actions = total_actions + 1, last_action_at = $2 WHERE user_id = $3`. -/
def updateScore (db : Db) (uid : UserId) (inc : Int) (now : Nat) : Db :=
  { db with
    scores := fun u =>
      if u = uid then
        { current_score := (db.scores u).current_score + inc,
          total_actions := (db.scores u).total_actions + 1,
          last_action_at := some now }
      else db.scores u }

/-- `redis.set(lockKey, '1', 'EX', ttl, 'NX')` succeeded: mark the
`(userId, actionId)` lock key held. -/
def acquireLock (s : SysState) (uid : UserId) (aid : ActionId) : SysState :=
  { s with locks := fun u a => if u = uid ∧ a = aid then true else s.locks u a }

/-- `redis.del(lockKey)` — the `finally` release of the advisory lock. -/
def releaseLock (s : SysState) (uid : UserId) (aid : ActionId) : SysState :=
  { s with locks := fun u a => if u = uid ∧ a = aid then false else s.locks u a }

/-- The `app.post('/api/v1/scores/update', ...)` handler: acquire the
distributed lock (already held → 409 `CONCURRENT_REQUEST`), check for an
existing action (→ 409 `DUPLICATE_ACTION`), then in one transaction insert
the action record (a `unique_action_id`-style constraint violation is
caught as `DUPLICATE_ACTION` with rollback) and update the score row,
releasing the lock on every exit path. -/
def scoreUpdateHandler (s : SysState) (uid : UserId) (r : UpdateRequest) :
    UpdateResult × SysState :=
  if s.locks uid r.actionId then (.lockContended, s)
  else
    let s1 := acquireLock s uid r.actionId
    if hasAction s1.db r.actionId uid then (.duplicate, releaseLock s1 uid r.actionId)
    else
      match insertAction s1.db
          ⟨r.actionId, uid, r.actionType, r.scoreIncrement, r.now⟩ with
      | none => (.duplicate, releaseLock s1 uid r.actionId)
      | some db1 =>
        let db2 := updateScore db1 uid r.scoreIncrement r.now
        let newScore := (db2.scores uid).current_score
        (.committed newScore, releaseLock { s1 with db := db2 } uid r.actionId)

/-- The per-action-type rate configuration table `actionRateLimits`. -/
structure RateLimit where
  window : Nat
  maxCount : Nat
  deriving DecidableEq

/-- `actionRateLimits`: 5 task completions per minute, 2 achievements per
5 minutes, 10 bonus actions per hour; unknown types have no entry. -/
def actionRateLimits : ActionType → Option RateLimit
  | "task_completion" => some ⟨60000, 5⟩
  | "achievement_unlock" => some ⟨300000, 2⟩
  | "bonus_action" => some ⟨3600000, 10⟩
  | _ => none

/-- The `actionRateLimit` middleware: unknown action type → 400
`INVALID_ACTION_TYPE`; otherwise read the counter (`redis.get`, null for an
absent key, i.e. 0 here); if it is set and at least the configured maximum
→ 429 `ACTION_RATE_LIMIT` with the counter untouched; otherwise increment
the counter and fall through to the handler. -/
def actionRateLimit (s : SysState) (uid : UserId) (atype : ActionType) :
    Except UpdateResult SysState :=
  match actionRateLimits atype with
  | none => .error .invalidActionType
  | some limits =>
    let current := s.counters atype uid
    if current ≠ 0 ∧ limits.maxCount ≤ current then .error .rateLimited
    else
      .ok { s with
        counters := fun t u =>
          if t = atype ∧ u = uid then s.counters t u + 1 else s.counters t u }

/-- The score-update route with its protection layers wired in the order the
design document composes them (rate-limit middleware, then the handler). -/
def submit (s : SysState) (uid : UserId) (r : UpdateRequest) :
    UpdateResult × SysState :=
  match actionRateLimit s uid r.actionType with
  | .error e => (e, s)
  | .ok s1 => scoreUpdateHandler s1 uid r

/-- Modelled from the spec: the design document states the validation rule
"Maximum score increment per action is 1000 points" and reserves the error
code `SCORE_001: Invalid score increment value`, but ships no code for the
check; the spec's Gatekeeper performs it as step 1, before the rate window
and the lock. -/
def validIncrement (inc : Int) : Bool :=
  inc ≤ 1000

/-- Modelled from the spec: the Gatekeeper pipeline with the missing
increment validation in front of the implemented rate-limit middleware and
handler; a violation is rejected as `ValidationFailed` before any state is
touched. -/
def submitValidated (s : SysState) (uid : UserId) (r : UpdateRequest) :
    UpdateResult × SysState :=
  if validIncrement r.scoreIncrement then submit s uid r
  else (.validationFailed, s)

/-- The empty initial state: no actions, every score row at its column
defaults, no lock held, no rate counter set. -/
def initState : SysState :=
  { db := { actions := [], scores := fun _ => ⟨0, 0, none⟩ },
    locks := fun _ _ => false,
    counters := fun _ _ => 0 }

/-- The `ActionRecord` a request inserts for a given user. -/
def reqRecord (uid : UserId) (r : UpdateRequest) : ActionRecord :=
  ⟨r.actionId, uid, r.actionType, r.scoreIncrement, r.now⟩

/-- Sum of `score_value` over the committed actions of one user. -/
def scoreSum (l : List ActionRecord) (u : UserId) : Int :=
  ((l.filter fun a => a.user_id == u).map ActionRecord.score_value).sum

/-- The ledger invariant: every `current_score` equals the sum of the
values of that user's committed actions. -/
def LedgerInv (db : Db) : Prop :=
  ∀ u, (db.scores u).current_score = scoreSum db.actions u

@[simp] theorem acquireLock_db (s : SysState) (u : UserId) (a : ActionId) :
    (acquireLock s u a).db = s.db := rfl

@[simp] theorem releaseLock_db (s : SysState) (u : UserId) (a : ActionId) :
    (releaseLock s u a).db = s.db := rfl

@[simp] theorem acquireLock_counters (s : SysState) (u : UserId) (a : ActionId) :
    (acquireLock s u a).counters = s.counters := rfl

@[simp] theorem releaseLock_counters (s : SysState) (u : UserId) (a : ActionId) :
    (releaseLock s u a).counters = s.counters := rfl

theorem scoreSum_cons (a : ActionRecord) (l : List ActionRecord) (u : UserId) :
    scoreSum (a :: l) u
      = (if a.user_id == u then a.score_value else 0) + scoreSum l u := by
  unfold scoreSum
  rw [List.filter_cons]
  by_cases h : (a.user_id == u) = true <;> simp [h]

/-- Case analysis of the update handler: contended, duplicate, or a commit
that prepends exactly the request's record and adds exactly its value. -/
theorem scoreUpdateHandler_cases (s : SysState) (uid : UserId) (r : UpdateRequest) :
    (s.locks uid r.actionId = true ∧ scoreUpdateHandler s uid r = (.lockContended, s))
  ∨ (s.locks uid r.actionId = false ∧ hasAction s.db r.actionId uid = true ∧
      scoreUpdateHandler s uid r
        = (.duplicate, releaseLock (acquireLock s uid r.actionId) uid r.actionId))
  ∨ (s.locks uid r.actionId = false ∧ hasAction s.db r.actionId uid = false ∧
      scoreUpdateHandler s uid r
        = (.committed ((s.db.scores uid).current_score + r.scoreIncrement),
           releaseLock
             { acquireLock s uid r.actionId with
               db := updateScore { s.db with actions := reqRecord uid r :: s.db.actions }
                 uid r.scoreIncrement r.now }
             uid r.actionId)) := by
  by_cases hl : s.locks uid r.actionId = true
  · exact Or.inl ⟨hl, by simp [scoreUpdateHandler, hl]⟩
  · have hl' : s.locks uid r.actionId = false := by simpa using hl
    by_cases hd : hasAction s.db r.actionId uid = true
    · refine Or.inr (Or.inl ⟨hl', hd, ?_⟩)
      simp [scoreUpdateHandler, hl', hd]
    · have hd' : hasAction s.db r.actionId uid = false := by simpa using hd
      refine Or.inr (Or.inr ⟨hl', hd', ?_⟩)
      simp [scoreUpdateHandler, hl', hd', insertAction, reqRecord, updateScore]

/-- Case analysis of the rate-limit middleware: unknown type, window full
(counter untouched), or pass-through with the counter bumped. -/
theorem actionRateLimit_cases (s : SysState) (uid : UserId) (t : ActionType) :
    (actionRateLimits t = none ∧ actionRateLimit s uid t = .error .invalidActionType)
  ∨ (∃ lim, actionRateLimits t = some lim ∧ s.counters t uid ≠ 0 ∧
      lim.maxCount ≤ s.counters t uid ∧ actionRateLimit s uid t = .error .rateLimited)
  ∨ (∃ lim, actionRateLimits t = some lim ∧
      ¬(s.counters t uid ≠ 0 ∧ lim.maxCount ≤ s.counters t uid) ∧
      actionRateLimit s uid t
        = .ok { s with counters := fun t' u' =>
            if t' = t ∧ u' = uid then s.counters t' u' + 1 else s.counters t' u' }) := by
  match hcfg : actionRateLimits t with
  | none => exact Or.inl ⟨rfl, by simp [actionRateLimit, hcfg]⟩
  | some lim =>
    by_cases hfull : s.counters t uid ≠ 0 ∧ lim.maxCount ≤ s.counters t uid
    · exact Or.inr (Or.inl ⟨lim, rfl, hfull.1, hfull.2,
        by simp [actionRateLimit, hcfg, hfull]⟩)
    · exact Or.inr (Or.inr ⟨lim, rfl, hfull, by simp [actionRateLimit, hcfg, hfull]⟩)

/-- Every configured rate limit has a positive maximum. -/
theorem actionRateLimits_pos (t : ActionType) (lim : RateLimit)
    (h : actionRateLimits t = some lim) : 1 ≤ lim.maxCount := by
  unfold actionRateLimits at h
  split at h
  · cases h; decide
  · cases h; decide
  · cases h; decide
  · cases h

theorem updateScore_ledgerInv (db : Db) (uid : UserId) (r : UpdateRequest)
    (hInv : LedgerInv db) :
    LedgerInv (updateScore { db with actions := reqRecord uid r :: db.actions }
      uid r.scoreIncrement r.now) := by
  intro u
  by_cases hu : u = uid
  · subst hu
    simp [updateScore, scoreSum_cons, reqRecord, hInv u]
    ring
  · have hne : (uid == u) = false := by simp [Ne.symm hu]
    simp [updateScore, hu, scoreSum_cons, reqRecord, hne, hInv u]

/-- C1: for every principal the aggregate `current_score` equals the sum of
`value` over the committed ActionRecords of that principal — the invariant
holds initially, every submission preserves it, and a successful apply
inserts exactly one ActionRecord and adds exactly its value to
`current_score` in the same transaction. -/
theorem ledger_invariant (s : SysState) (uid : UserId) (r : UpdateRequest)
    (hInv : LedgerInv s.db) :
    LedgerInv initState.db ∧
    LedgerInv (submit s uid r).2.db ∧
    (∀ n, (submit s uid r).1 = .committed n →
      (submit s uid r).2.db.actions = reqRecord uid r :: s.db.actions ∧
      ((submit s uid r).2.db.scores uid).current_score
        = (s.db.scores uid).current_score + r.scoreIncrement ∧
      n = (s.db.scores uid).current_score + r.scoreIncrement) := by
  refine ⟨fun u => by simp [initState, scoreSum], ?_⟩
  rcases actionRateLimit_cases s uid r.actionType with
    ⟨_, he⟩ | ⟨lim, _, _, _, he⟩ | ⟨lim, hcfg, hnf, he⟩
  · have hs : submit s uid r = (.invalidActionType, s) := by simp [submit, he]
    rw [hs]
    exact ⟨hInv, fun n h => by cases h⟩
  · have hs : submit s uid r = (.rateLimited, s) := by simp [submit, he]
    rw [hs]
    exact ⟨hInv, fun n h => by cases h⟩
  · set sb : SysState :=
      { s with counters := fun t' u' =>
          if t' = r.actionType ∧ u' = uid then s.counters t' u' + 1
          else s.counters t' u' } with hsb
    have hsub : submit s uid r = scoreUpdateHandler sb uid r := by
      simp [submit, he]
    have hdb : sb.db = s.db := rfl
    rcases scoreUpdateHandler_cases sb uid r with
      ⟨_, hh⟩ | ⟨_, _, hh⟩ | ⟨_, hd, hh⟩
    · rw [hsub, hh]
      exact ⟨hInv, by intro n h; cases h⟩
    · rw [hsub, hh]
      exact ⟨hInv, by intro n h; cases h⟩
    · rw [hsub, hh]
      refine ⟨updateScore_ledgerInv s.db uid r hInv, ?_⟩
      intro n h
      have hn : n = (s.db.scores uid).current_score + r.scoreIncrement := by
        cases h; rfl
      refine ⟨rfl, ?_, hn⟩
      simp [updateScore]

/-- Witness for C1 at a concrete submission from the initial state. -/
theorem ledger_invariant_witness :
    LedgerInv (submit initState "u1" ⟨"a1", "task_completion", 50, 0⟩).2.db :=
  (ledger_invariant initState "u1" ⟨"a1", "task_completion", 50, 0⟩
    (fun u => by simp [initState, scoreSum])).2.1

/-- C5: a submission whose (principal, action type) window counter already
meets the configured maximum is rejected as rate-limited with the whole
state (in particular the counter) unchanged, and every further submission
of that action type in the same window is likewise rejected. -/
theorem rate_limit_rejects_excess (s : SysState) (uid : UserId)
    (r : UpdateRequest) (lim : RateLimit)
    (hcfg : actionRateLimits r.actionType = some lim)
    (hfull : lim.maxCount ≤ s.counters r.actionType uid) :
    submit s uid r = (.rateLimited, s) ∧
    (∀ r2 : UpdateRequest, r2.actionType = r.actionType →
      submit s uid r2 = (.rateLimited, s)) := by
  have hpos := actionRateLimits_pos _ _ hcfg
  have hnz : s.counters r.actionType uid ≠ 0 := by omega
  have hrl : actionRateLimit s uid r.actionType = .error .rateLimited := by
    simp [actionRateLimit, hcfg, hnz, hfull]
  refine ⟨by simp [submit, hrl], ?_⟩
  intro r2 hty
  have hrl2 : actionRateLimit s uid r2.actionType = .error .rateLimited := by
    rw [hty]; exact hrl
  simp [submit, hrl2]

/-- Witness for C5: the sixth `task_completion` in a window whose counter
is already at the configured maximum of 5 is rejected. -/
theorem rate_limit_rejects_excess_witness :
    submit
      { initState with
        counters := fun t u => if t = "task_completion" ∧ u = "u1" then 5 else 0 }
      "u1" ⟨"a6", "task_completion", 10, 0⟩
    = (.rateLimited,
       { initState with
         counters := fun t u => if t = "task_completion" ∧ u = "u1" then 5 else 0 }) :=
  (rate_limit_rejects_excess _ "u1" ⟨"a6", "task_completion", 10, 0⟩
    ⟨60000, 5⟩ rfl (by simp)).1

/-- C6: a submission whose increment violates the configured 1000-point
bound is rejected as `ValidationFailed` with no state change at all (no
ActionRecord, no score mutation, no counter change), and resubmitting it
in any state is rejected the same way, so no retry can apply it. -/
theorem validation_rejects_out_of_bounds (s : SysState) (uid : UserId)
    (r : UpdateRequest) (hbad : 1000 < r.scoreIncrement) :
    submitValidated s uid r = (.validationFailed, s) ∧
    (∀ s2, submitValidated s2 uid r = (.validationFailed, s2)) := by
  have hv : validIncrement r.scoreIncrement = false := by
    simp [validIncrement]; omega
  exact ⟨by simp [submitValidated, hv], fun s2 => by simp [submitValidated, hv]⟩

/-- Witness for C6: a 2000-point increment is rejected before any state
change. -/
theorem validation_rejects_out_of_bounds_witness :
    submitValidated initState "u1" ⟨"a1", "task_completion", 2000, 0⟩
      = (.validationFailed, initState) :=
  (validation_rejects_out_of_bounds initState "u1"
    ⟨"a1", "task_completion", 2000, 0⟩ (by decide)).1

/-- Number of committed ActionRecords with a given `(action_id, user_id)`. -/
def countRec (db : Db) (aid : ActionId) (uid : UserId) : Nat :=
  (db.actions.filter fun a => a.action_id == aid && a.user_id == uid).length

/-- Run a sequence of submissions for one user, keeping the final state. -/
def runSubmits (s : SysState) (uid : UserId) : List UpdateRequest → SysState
  | [] => s
  | r :: rs => runSubmits (submit s uid r).2 uid rs

theorem hasAction_false_filter (db : Db) (aid : ActionId) (uid : UserId)
    (h : hasAction db aid uid = false) :
    db.actions.filter (fun a => a.action_id == aid && a.user_id == uid) = [] := by
  unfold hasAction at h
  rw [List.any_eq_false] at h
  exact List.filter_eq_nil_iff.mpr h

/-- What a committed submission did: the action was fresh, exactly its
record was prepended, the lock was released, and the score moved by exactly
the increment. -/
theorem submit_committed_spec (s : SysState) (uid : UserId) (r : UpdateRequest)
    (n : Int) (h : (submit s uid r).1 = .committed n) :
    hasAction s.db r.actionId uid = false ∧
    (submit s uid r).2.db.actions = reqRecord uid r :: s.db.actions ∧
    (submit s uid r).2.locks uid r.actionId = false ∧
    ((submit s uid r).2.db.scores uid).current_score
      = (s.db.scores uid).current_score + r.scoreIncrement := by
  rcases actionRateLimit_cases s uid r.actionType with
    ⟨_, he⟩ | ⟨lim, _, _, _, he⟩ | ⟨lim, hcfg, hnf, he⟩
  · have hs : submit s uid r = (.invalidActionType, s) := by simp [submit, he]
    rw [hs] at h; cases h
  · have hs : submit s uid r = (.rateLimited, s) := by simp [submit, he]
    rw [hs] at h; cases h
  · set sb : SysState :=
      { s with counters := fun t' u' =>
          if t' = r.actionType ∧ u' = uid then s.counters t' u' + 1
          else s.counters t' u' } with hsb
    have hsub : submit s uid r = scoreUpdateHandler sb uid r := by
      simp [submit, he]
    rcases scoreUpdateHandler_cases sb uid r with
      ⟨_, hh⟩ | ⟨_, _, hh⟩ | ⟨_, hd, hh⟩
    · rw [hsub, hh] at h; cases h
    · rw [hsub, hh] at h; cases h
    · rw [hsub, hh]
      exact ⟨hd, rfl, by simp [releaseLock], by simp [updateScore]⟩

/-- C3 amended: after a committed submission, resubmitting the same
`action_id` yields `DuplicateAction` — provided the rate window for the
action type is still below its configured maximum (otherwise the retry is
answered `RateLimited` by the middleware before the duplicate check runs) —
and in that case the ActionRecord set and the score aggregates are left
unchanged, exactly one record for the action exists, and exactly one score
mutation (the first) was applied. -/
theorem sequential_duplicate_idempotent (s : SysState) (uid : UserId)
    (r : UpdateRequest) (n : Int) (lim : RateLimit)
    (hfirst : (submit s uid r).1 = .committed n)
    (hcfg : actionRateLimits r.actionType = some lim)
    (hroom : (submit s uid r).2.counters r.actionType uid < lim.maxCount) :
    (submit (submit s uid r).2 uid r).1 = .duplicate ∧
    (submit (submit s uid r).2 uid r).2.db = (submit s uid r).2.db ∧
    countRec (submit (submit s uid r).2 uid r).2.db r.actionId uid = 1 ∧
    ((submit s uid r).2.db.scores uid).current_score
      = (s.db.scores uid).current_score + r.scoreIncrement := by
  obtain ⟨hno, hacts, hlock, hscore⟩ := submit_committed_spec s uid r n hfirst
  set s1 := (submit s uid r).2 with hs1
  rcases actionRateLimit_cases s1 uid r.actionType with
    ⟨hc, _⟩ | ⟨lim', hc, _, hfull, _⟩ | ⟨lim', hc, _, he⟩
  · rw [hcfg] at hc; cases hc
  · rw [hcfg] at hc
    cases hc
    omega
  · have hsub : submit s1 uid r = scoreUpdateHandler
        { s1 with counters := fun t' u' =>
            if t' = r.actionType ∧ u' = uid then s1.counters t' u' + 1
            else s1.counters t' u' } uid r := by
      simp [submit, he]
    set s2 : SysState :=
      { s1 with counters := fun t' u' =>
          if t' = r.actionType ∧ u' = uid then s1.counters t' u' + 1
          else s1.counters t' u' } with hs2
    have hl2 : s2.locks uid r.actionId = false := hlock
    have hd2 : hasAction s2.db r.actionId uid = true := by
      have : s2.db = s1.db := rfl
      rw [this]
      unfold hasAction
      rw [hacts]
      simp [reqRecord]
    rcases scoreUpdateHandler_cases s2 uid r with
      ⟨hl', _⟩ | ⟨_, _, hh⟩ | ⟨_, hd', _⟩
    · rw [hl2] at hl'; cases hl'
    · rw [hsub, hh]
      refine ⟨rfl, rfl, ?_, hscore⟩
      show countRec s2.db r.actionId uid = 1
      show countRec s1.db r.actionId uid = 1
      unfold countRec
      rw [hacts, List.filter_cons]
      have hrec : ((reqRecord uid r).action_id == r.actionId
          && (reqRecord uid r).user_id == uid) = true := by
        simp [reqRecord]
      rw [if_pos hrec, hasAction_false_filter s.db r.actionId uid hno]
      rfl
    · rw [hd2] at hd'; cases hd'

/-- Witness for C3's amended theorem: commit then resubmit from a fresh
state. -/
theorem sequential_duplicate_idempotent_witness :
    (submit (submit initState "u1" ⟨"a1", "task_completion", 50, 0⟩).2
        "u1" ⟨"a1", "task_completion", 50, 0⟩).1 = .duplicate :=
  (sequential_duplicate_idempotent initState "u1"
    ⟨"a1", "task_completion", 50, 0⟩ 50 ⟨60000, 5⟩
    (by decide) rfl (by decide)).1

/-- Counterexample to C3 as stated: five `task_completion` submissions fill
the rate window (configured maximum 5); the committed fifth action, when
resubmitted, is answered `RateLimited` by the middleware — not
`DuplicateAction`. -/
theorem sequential_duplicate_not_always_duplicate :
    (submit (runSubmits initState "u1"
        [⟨"a1", "task_completion", 10, 0⟩, ⟨"a2", "task_completion", 10, 0⟩,
         ⟨"a3", "task_completion", 10, 0⟩, ⟨"a4", "task_completion", 10, 0⟩])
        "u1" ⟨"a5", "task_completion", 10, 0⟩).1 = .committed 50 ∧
    (submit (runSubmits initState "u1"
        [⟨"a1", "task_completion", 10, 0⟩, ⟨"a2", "task_completion", 10, 0⟩,
         ⟨"a3", "task_completion", 10, 0⟩, ⟨"a4", "task_completion", 10, 0⟩,
         ⟨"a5", "task_completion", 10, 0⟩])
        "u1" ⟨"a5", "task_completion", 10, 0⟩).1 = .rateLimited ∧
    (submit (runSubmits initState "u1"
        [⟨"a1", "task_completion", 10, 0⟩, ⟨"a2", "task_completion", 10, 0⟩,
         ⟨"a3", "task_completion", 10, 0⟩, ⟨"a4", "task_completion", 10, 0⟩,
         ⟨"a5", "task_completion", 10, 0⟩])
        "u1" ⟨"a5", "task_completion", 10, 0⟩).1 ≠ .duplicate := by
  refine ⟨by decide, by decide, by decide⟩

/-- No two committed ActionRecords share both `action_id` and `user_id` —
the uniqueness the primary DDL (`idx_actions_unique_per_user`) and the
handler's duplicate check actually enforce. -/
def UniquePerUser (db : Db) : Prop :=
  db.actions.Pairwise fun a b => ¬(a.action_id = b.action_id ∧ a.user_id = b.user_id)

/-- C4 amended: `action_id` is unique per principal, not globally — the
invariant holds initially and is preserved by every submission, and an
apply whose `action_id` the same principal has already committed is
rejected as Duplicate with the database untouched. -/
theorem action_id_unique_per_principal (s : SysState) (uid : UserId)
    (r : UpdateRequest) (hU : UniquePerUser s.db) :
    UniquePerUser initState.db ∧
    UniquePerUser (submit s uid r).2.db ∧
    (∀ (u' : UserId) (r' : UpdateRequest),
      hasAction s.db r'.actionId u' = true → s.locks u' r'.actionId = false →
      (scoreUpdateHandler s u' r').1 = .duplicate ∧
      (scoreUpdateHandler s u' r').2.db = s.db) := by
  refine ⟨List.Pairwise.nil, ?_, ?_⟩
  · rcases actionRateLimit_cases s uid r.actionType with
      ⟨_, he⟩ | ⟨lim, _, _, _, he⟩ | ⟨lim, hcfg, hnf, he⟩
    · have hs : submit s uid r = (.invalidActionType, s) := by simp [submit, he]
      rw [hs]; exact hU
    · have hs : submit s uid r = (.rateLimited, s) := by simp [submit, he]
      rw [hs]; exact hU
    · set sb : SysState :=
        { s with counters := fun t' u' =>
            if t' = r.actionType ∧ u' = uid then s.counters t' u' + 1
            else s.counters t' u' } with hsb
      have hsub : submit s uid r = scoreUpdateHandler sb uid r := by
        simp [submit, he]
      rcases scoreUpdateHandler_cases sb uid r with
        ⟨_, hh⟩ | ⟨_, _, hh⟩ | ⟨_, hd, hh⟩
      · rw [hsub, hh]; exact hU
      · rw [hsub, hh]; exact hU
      · rw [hsub, hh]
        show List.Pairwise _ (reqRecord uid r :: s.db.actions)
        refine List.Pairwise.cons ?_ hU
        intro a ha hmatch
        have : hasAction s.db r.actionId uid = true := by
          unfold hasAction
          rw [List.any_eq_true]
          refine ⟨a, ha, ?_⟩
          simp only [reqRecord] at hmatch
          simp [← hmatch.1, ← hmatch.2]
        rw [hd] at this; cases this
  · intro u' r' hdup hfree
    rcases scoreUpdateHandler_cases s u' r' with
      ⟨hl', _⟩ | ⟨_, _, hh⟩ | ⟨_, hd', _⟩
    · rw [hfree] at hl'; cases hl'
    · rw [hh]; exact ⟨rfl, rfl⟩
    · rw [hdup] at hd'; cases hd'

/-- Witness for C4's amended theorem: one committed action for `u1`; the
same principal's re-apply of `a1` is rejected as Duplicate. -/
theorem action_id_unique_per_principal_witness :
    UniquePerUser
      (submit { initState with
          db := { actions := [⟨"a1", "u1", "task_completion", 50, 0⟩],
                  scores := fun _ => ⟨0, 0, none⟩ } }
        "u1" ⟨"a2", "task_completion", 10, 0⟩).2.db ∧
    (scoreUpdateHandler { initState with
        db := { actions := [⟨"a1", "u1", "task_completion", 50, 0⟩],
                scores := fun _ => ⟨0, 0, none⟩ } }
      "u1" ⟨"a1", "task_completion", 50, 0⟩).1 = .duplicate := by
  have h := action_id_unique_per_principal
    { initState with
      db := { actions := [⟨"a1", "u1", "task_completion", 50, 0⟩],
              scores := fun _ => ⟨0, 0, none⟩ } }
    "u1" ⟨"a2", "task_completion", 10, 0⟩
    (List.pairwise_singleton _ _)
  exact ⟨h.2.1, (h.2.2 "u1" ⟨"a1", "task_completion", 50, 0⟩ (by decide) rfl).1⟩

/-- Counterexample to C4 as stated: two different principals both commit an
action with the same `action_id` `"a1"` — the duplicate check filters by
`action_id AND user_id` and the primary unique index is per user, so the
second principal's submission is not rejected as Duplicate and two
committed records share one `action_id`. -/
theorem action_id_not_globally_unique :
    (submit initState "u1" ⟨"a1", "task_completion", 50, 0⟩).1 = .committed 50 ∧
    (submit (submit initState "u1" ⟨"a1", "task_completion", 50, 0⟩).2
        "u2" ⟨"a1", "task_completion", 50, 0⟩).1 = .committed 50 ∧
    (submit (submit initState "u1" ⟨"a1", "task_completion", 50, 0⟩).2
        "u2" ⟨"a1", "task_completion", 50, 0⟩).1 ≠ .duplicate ∧
    ((submit (submit initState "u1" ⟨"a1", "task_completion", 50, 0⟩).2
        "u2" ⟨"a1", "task_completion", 50, 0⟩).2.db.actions.filter
      fun a => a.action_id == "a1").length = 2 := by
  refine ⟨by decide, by decide, by decide, by decide⟩

/-! ## Concurrent executions of the update handler

`N` requests carrying the same `(userId, actionId, actionType,
scoreIncrement)` run the handler concurrently.  Each request is a thread
whose program counter walks the handler's statements: the atomic
`SET ... NX` lock acquisition, the duplicate `SELECT`, the `INSERT`
(failing on the unique constraint), and the `UPDATE` + `COMMIT` with the
`finally` lock release.  Any interleaving of these steps is allowed. -/

/-- Program counter of one in-flight request. -/
inductive Phase where
  | start
  | check
  | ins
  | upd
  | done (o : UpdateResult)
  deriving DecidableEq

/-- The thread is between lock acquisition and lock release. -/
def Phase.isCS : Phase → Bool
  | .check => true
  | .ins => true
  | .upd => true
  | _ => false

/-- The thread has executed its `INSERT`. -/
def Phase.isInserted : Phase → Bool
  | .upd => true
  | .done (.committed _) => true
  | _ => false

/-- The thread has committed its transaction and answered success. -/
def Phase.isCommitted : Phase → Bool
  | .done (.committed _) => true
  | _ => false

/-- The thread has not taken any step yet. -/
def Phase.isStart : Phase → Bool
  | .start => true
  | _ => false

/-- The thread has sent its response. -/
def Phase.isDone : Phase → Bool
  | .done _ => true
  | _ => false

/-- Global state of `n` concurrent identical submissions: the database,
the single contended `action_lock:uid:aid` key, and each thread's program
counter. -/
structure CState (n : Nat) where
  db : Db
  lock : Bool
  threads : Fin n → Phase

/-- One atomic step of thread `i`:
`start`: the `SET NX` — if the lock is held answer 409 `CONCURRENT_REQUEST`,
else acquire it; `check`: the duplicate `SELECT` — a hit answers 409
`DUPLICATE_ACTION` and releases the lock; `ins`: the `INSERT` — a unique
constraint violation answers `DUPLICATE_ACTION`, rolls back and releases;
`upd`: the `UPDATE` + `COMMIT`, success response, and lock release. -/
def stepThread (uid : UserId) (r : UpdateRequest) (s : CState n) (i : Fin n) :
    CState n :=
  match s.threads i with
  | .start =>
    if s.lock then
      { s with threads := Function.update s.threads i (.done .lockContended) }
    else
      { s with lock := true, threads := Function.update s.threads i .check }
  | .check =>
    if hasAction s.db r.actionId uid then
      { s with
        lock := false
        threads := Function.update s.threads i (.done .duplicate) }
    else { s with threads := Function.update s.threads i .ins }
  | .ins =>
    match insertAction s.db (reqRecord uid r) with
    | none =>
      { s with
        lock := false
        threads := Function.update s.threads i (.done .duplicate) }
    | some db1 => { s with db := db1, threads := Function.update s.threads i .upd }
  | .upd =>
    let db2 := updateScore s.db uid r.scoreIncrement r.now
    { s with
      db := db2
      lock := false
      threads := Function.update s.threads i
        (.done (.committed ((db2.scores uid).current_score))) }
  | .done _ => s

/-- Interleaving semantics: some thread takes its next step. -/
def CStep (uid : UserId) (r : UpdateRequest) (s s' : CState n) : Prop :=
  ∃ i, s' = stepThread uid r s i

/-- Reachability under any interleaving. -/
def CReach (uid : UserId) (r : UpdateRequest) : CState n → CState n → Prop :=
  Relation.ReflTransGen (CStep uid r)

/-- Initial state: a quiescent database `d0`, the lock free, all requests
about to run. -/
def initC (n : Nat) (d0 : Db) : CState n :=
  { db := d0, lock := false, threads := fun _ => .start }

/-- The execution invariant: the lock gives mutual exclusion over the
critical section, at most one thread ever inserts, the database contents
are determined by how far the inserting thread has got, a thread inside
the critical section before its insert sees no duplicate, every duplicate
answer was caused by a real insert, every response has one of the three
shapes, and once anything has happened some thread is in the critical
section or has inserted. -/
structure CInv (uid : UserId) (r : UpdateRequest) (d0 : Db) (s : CState n) : Prop where
  mutex : ∀ i j, (s.threads i).isCS = true → (s.threads j).isCS = true → i = j
  lock_iff : s.lock = true ↔ ∃ i, (s.threads i).isCS = true
  ins_unique : ∀ i j, (s.threads i).isInserted = true →
    (s.threads j).isInserted = true → i = j
  acts_pos : ∀ i, (s.threads i).isInserted = true →
    s.db.actions = reqRecord uid r :: d0.actions
  acts_neg : (∀ i, (s.threads i).isInserted = false) → s.db.actions = d0.actions
  scr_pos : ∀ i, (s.threads i).isCommitted = true →
    s.db.scores = (updateScore d0 uid r.scoreIncrement r.now).scores
  scr_neg : (∀ i, (s.threads i).isCommitted = false) → s.db.scores = d0.scores
  fresh : ∀ i, s.threads i = .ins → hasAction s.db r.actionId uid = false
  dup_ins : ∀ i, s.threads i = .done .duplicate →
    ∃ j, (s.threads j).isInserted = true
  done_shape : ∀ i o, s.threads i = .done o →
    o = .lockContended ∨ o = .duplicate ∨
      o = .committed ((d0.scores uid).current_score + r.scoreIncrement)
  active : (∃ i, (s.threads i).isStart = false) →
    (∃ i, (s.threads i).isCS = true) ∨ (∃ i, (s.threads i).isInserted = true)

theorem Phase.isInserted_of_isCommitted {p : Phase} (h : p.isCommitted = true) :
    p.isInserted = true := by
  cases p with
  | done o => cases o <;> simp_all [Phase.isCommitted, Phase.isInserted]
  | _ => simp_all [Phase.isCommitted]

theorem hasAction_congr {db db' : Db} (a : ActionId) (u : UserId)
    (h : db.actions = db'.actions) : hasAction db a u = hasAction db' a u := by
  simp [hasAction, h]

theorem hasAction_of_cons {db : Db} {l : List ActionRecord} (uid : UserId)
    (r : UpdateRequest) (h : db.actions = reqRecord uid r :: l) :
    hasAction db r.actionId uid = true := by
  simp [hasAction, h, reqRecord]

theorem updateScore_scores_congr {db db' : Db} (u : UserId) (inc : Int) (t : Nat)
    (h : db.scores = db'.scores) :
    (updateScore db u inc t).scores = (updateScore db' u inc t).scores := by
  funext u'
  simp [updateScore, h]

/-- Any step of any thread preserves the execution invariant, provided the
initial database held no record of the contended action. -/
theorem CInv_step {n : Nat} (uid : UserId) (r : UpdateRequest) (d0 : Db)
    (hno : hasAction d0 r.actionId uid = false)
    {s s' : CState n} (hInv : CInv uid r d0 s) (hstep : CStep uid r s s') :
    CInv uid r d0 s' := by
  obtain ⟨i, rfl⟩ := hstep
  cases hph : s.threads i with
  | done o =>
    have hrw : stepThread uid r s i = s := by simp [stepThread, hph]
    rw [hrw]; exact hInv
  | start =>
    by_cases hl : s.lock = true
    · -- the SET NX fails: answer CONCURRENT_REQUEST
      have hrw : stepThread uid r s i
          = { s with threads := Function.update s.threads i (.done .lockContended) } := by
        simp [stepThread, hph, hl]
      rw [hrw]
      obtain ⟨k, hk⟩ := hInv.lock_iff.mp hl
      have hki : k ≠ i := by
        intro h; subst h; rw [hph] at hk; simp [Phase.isCS] at hk
      refine ⟨?_, ?_, ?_, ?_, ?_, ?_, ?_, ?_, ?_, ?_, ?_⟩
      · intro j j' hj hj'
        by_cases h1 : j = i
        · subst h1; simp only [Function.update_same] at hj; simp [Phase.isCS] at hj
        · by_cases h2 : j' = i
          · subst h2; simp only [Function.update_same] at hj'; simp [Phase.isCS] at hj'
          · simp only [Function.update_noteq h1] at hj
            simp only [Function.update_noteq h2] at hj'
            exact hInv.mutex j j' hj hj'
      · constructor
        · intro _
          exact ⟨k, by simp only [Function.update_noteq hki]; exact hk⟩
        · intro _; exact hl
      · intro j j' hj hj'
        by_cases h1 : j = i
        · subst h1; simp only [Function.update_same] at hj; simp [Phase.isInserted] at hj
        · by_cases h2 : j' = i
          · subst h2; simp only [Function.update_same] at hj'
            simp [Phase.isInserted] at hj'
          · simp only [Function.update_noteq h1] at hj
            simp only [Function.update_noteq h2] at hj'
            exact hInv.ins_unique j j' hj hj'
      · intro j hj
        by_cases h1 : j = i
        · subst h1; simp only [Function.update_same] at hj; simp [Phase.isInserted] at hj
        · simp only [Function.update_noteq h1] at hj
          exact hInv.acts_pos j hj
      · intro h
        refine hInv.acts_neg fun j => ?_
        by_cases h1 : j = i
        · subst h1; rw [hph]; rfl
        · have := h j; simpa only [Function.update_noteq h1] using this
      · intro j hj
        by_cases h1 : j = i
        · subst h1; simp only [Function.update_same] at hj; simp [Phase.isCommitted] at hj
        · simp only [Function.update_noteq h1] at hj
          exact hInv.scr_pos j hj
      · intro h
        refine hInv.scr_neg fun j => ?_
        by_cases h1 : j = i
        · subst h1; rw [hph]; rfl
        · have := h j; simpa only [Function.update_noteq h1] using this
      · intro j hj
        by_cases h1 : j = i
        · subst h1; simp only [Function.update_same] at hj; simp at hj
        · simp only [Function.update_noteq h1] at hj
          exact hInv.fresh j hj
      · intro j hj
        by_cases h1 : j = i
        · subst h1; simp only [Function.update_same] at hj; simp at hj
        · simp only [Function.update_noteq h1] at hj
          obtain ⟨k', hk'⟩ := hInv.dup_ins j hj
          have hk'i : k' ≠ i := by
            intro h; subst h; rw [hph] at hk'; simp [Phase.isInserted] at hk'
          exact ⟨k', by simp only [Function.update_noteq hk'i]; exact hk'⟩
      · intro j o' hj
        by_cases h1 : j = i
        · subst h1; simp only [Function.update_same] at hj
          cases hj; exact Or.inl rfl
        · simp only [Function.update_noteq h1] at hj
          exact hInv.done_shape j o' hj
      · intro _
        exact Or.inl ⟨k, by simp only [Function.update_noteq hki]; exact hk⟩
    · -- the SET NX succeeds: enter the critical section
      have hlf : s.lock = false := by simpa using hl
      have hrw : stepThread uid r s i
          = { s with
              lock := true
              threads := Function.update s.threads i .check } := by
        simp [stepThread, hph, hlf]
      rw [hrw]
      have hnoCS : ∀ j, (s.threads j).isCS = false := by
        intro j
        by_contra hcs
        have : s.lock = true := hInv.lock_iff.mpr ⟨j, by simpa using hcs⟩
        rw [hlf] at this; cases this
      refine ⟨?_, ?_, ?_, ?_, ?_, ?_, ?_, ?_, ?_, ?_, ?_⟩
      · intro j j' hj hj'
        by_cases h1 : j = i
        · by_cases h2 : j' = i
          · rw [h1, h2]
          · simp only [Function.update_noteq h2] at hj'
            rw [hnoCS j'] at hj'; cases hj'
        · simp only [Function.update_noteq h1] at hj
          rw [hnoCS j] at hj; cases hj
      · constructor
        · intro _
          exact ⟨i, by simp only [Function.update_same]; rfl⟩
        · intro _; rfl
      · intro j j' hj hj'
        by_cases h1 : j = i
        · subst h1; simp only [Function.update_same] at hj; simp [Phase.isInserted] at hj
        · by_cases h2 : j' = i
          · subst h2; simp only [Function.update_same] at hj'
            simp [Phase.isInserted] at hj'
          · simp only [Function.update_noteq h1] at hj
            simp only [Function.update_noteq h2] at hj'
            exact hInv.ins_unique j j' hj hj'
      · intro j hj
        by_cases h1 : j = i
        · subst h1; simp only [Function.update_same] at hj; simp [Phase.isInserted] at hj
        · simp only [Function.update_noteq h1] at hj
          exact hInv.acts_pos j hj
      · intro h
        refine hInv.acts_neg fun j => ?_
        by_cases h1 : j = i
        · subst h1; rw [hph]; rfl
        · have := h j; simpa only [Function.update_noteq h1] using this
      · intro j hj
        by_cases h1 : j = i
        · subst h1; simp only [Function.update_same] at hj; simp [Phase.isCommitted] at hj
        · simp only [Function.update_noteq h1] at hj
          exact hInv.scr_pos j hj
      · intro h
        refine hInv.scr_neg fun j => ?_
        by_cases h1 : j = i
        · subst h1; rw [hph]; rfl
        · have := h j; simpa only [Function.update_noteq h1] using this
      · intro j hj
        by_cases h1 : j = i
        · subst h1; simp only [Function.update_same] at hj; simp at hj
        · simp only [Function.update_noteq h1] at hj
          exact hInv.fresh j hj
      · intro j hj
        by_cases h1 : j = i
        · subst h1; simp only [Function.update_same] at hj; simp at hj
        · simp only [Function.update_noteq h1] at hj
          obtain ⟨k', hk'⟩ := hInv.dup_ins j hj
          have hk'i : k' ≠ i := by
            intro h; subst h; rw [hph] at hk'; simp [Phase.isInserted] at hk'
          exact ⟨k', by simp only [Function.update_noteq hk'i]; exact hk'⟩
      · intro j o' hj
        by_cases h1 : j = i
        · subst h1; simp only [Function.update_same] at hj; cases hj
        · simp only [Function.update_noteq h1] at hj
          exact hInv.done_shape j o' hj
      · intro _
        exact Or.inl ⟨i, by simp only [Function.update_same]; rfl⟩
  | check =>
    have hiCS : (s.threads i).isCS = true := by rw [hph]; rfl
    by_cases hd : hasAction s.db r.actionId uid = true
    · -- duplicate SELECT hit: answer DUPLICATE_ACTION, release the lock
      have hrw : stepThread uid r s i
          = { s with
              lock := false
              threads := Function.update s.threads i (.done .duplicate) } := by
        simp [stepThread, hph, hd]
      rw [hrw]
      -- a real insert must have produced the record
      have hins : ∃ k, (s.threads k).isInserted = true := by
        by_contra hnone
        push_neg at hnone
        have hall : ∀ j, (s.threads j).isInserted = false := by
          intro j; by_contra hne
          exact hnone j (by simpa using hne)
        have hacts : s.db.actions = d0.actions := hInv.acts_neg hall
        rw [hasAction_congr r.actionId uid hacts, hno] at hd
        cases hd
      obtain ⟨k, hk⟩ := hins
      have hki : k ≠ i := by
        intro h; subst h; rw [hph] at hk; simp [Phase.isInserted] at hk
      refine ⟨?_, ?_, ?_, ?_, ?_, ?_, ?_, ?_, ?_, ?_, ?_⟩
      · intro j j' hj hj'
        by_cases h1 : j = i
        · subst h1; simp only [Function.update_same] at hj; simp [Phase.isCS] at hj
        · by_cases h2 : j' = i
          · subst h2; simp only [Function.update_same] at hj'; simp [Phase.isCS] at hj'
          · simp only [Function.update_noteq h1] at hj
            simp only [Function.update_noteq h2] at hj'
            exact hInv.mutex j j' hj hj'
      · constructor
        · intro h; cases h
        · rintro ⟨j, hj⟩
          by_cases h1 : j = i
          · subst h1; simp only [Function.update_same] at hj; simp [Phase.isCS] at hj
          · simp only [Function.update_noteq h1] at hj
            have := hInv.mutex j i hj hiCS
            exact absurd this h1
      · intro j j' hj hj'
        by_cases h1 : j = i
        · subst h1; simp only [Function.update_same] at hj; simp [Phase.isInserted] at hj
        · by_cases h2 : j' = i
          · subst h2; simp only [Function.update_same] at hj'
            simp [Phase.isInserted] at hj'
          · simp only [Function.update_noteq h1] at hj
            simp only [Function.update_noteq h2] at hj'
            exact hInv.ins_unique j j' hj hj'
      · intro j hj
        by_cases h1 : j = i
        · subst h1; simp only [Function.update_same] at hj; simp [Phase.isInserted] at hj
        · simp only [Function.update_noteq h1] at hj
          exact hInv.acts_pos j hj
      · intro h
        have := h k
        simp only [Function.update_noteq hki] at this
        rw [hk] at this; cases this
      · intro j hj
        by_cases h1 : j = i
        · subst h1; simp only [Function.update_same] at hj; simp [Phase.isCommitted] at hj
        · simp only [Function.update_noteq h1] at hj
          exact hInv.scr_pos j hj
      · intro h
        refine hInv.scr_neg fun j => ?_
        by_cases h1 : j = i
        · subst h1; rw [hph]; rfl
        · have := h j; simpa only [Function.update_noteq h1] using this
      · intro j hj
        by_cases h1 : j = i
        · subst h1; simp only [Function.update_same] at hj; simp at hj
        · simp only [Function.update_noteq h1] at hj
          exact hInv.fresh j hj
      · intro j hj
        exact ⟨k, by simp only [Function.update_noteq hki]; exact hk⟩
      · intro j o' hj
        by_cases h1 : j = i
        · subst h1; simp only [Function.update_same] at hj
          cases hj; exact Or.inr (Or.inl rfl)
        · simp only [Function.update_noteq h1] at hj
          exact hInv.done_shape j o' hj
      · intro _
        exact Or.inr ⟨k, by simp only [Function.update_noteq hki]; exact hk⟩
    · -- duplicate SELECT empty: proceed to the INSERT
      have hdf : hasAction s.db r.actionId uid = false := by simpa using hd
      have hrw : stepThread uid r s i
          = { s with threads := Function.update s.threads i .ins } := by
        simp [stepThread, hph, hdf]
      rw [hrw]
      refine ⟨?_, ?_, ?_, ?_, ?_, ?_, ?_, ?_, ?_, ?_, ?_⟩
      · intro j j' hj hj'
        by_cases h1 : j = i
        · by_cases h2 : j' = i
          · rw [h1, h2]
          · simp only [Function.update_noteq h2] at hj'
            have := hInv.mutex j' i hj' hiCS
            exact absurd this h2
        · simp only [Function.update_noteq h1] at hj
          have := hInv.mutex j i hj hiCS
          exact absurd this h1
      · constructor
        · intro _
          exact ⟨i, by simp only [Function.update_same]; rfl⟩
        · intro _
          exact hInv.lock_iff.mpr ⟨i, hiCS⟩
      · intro j j' hj hj'
        by_cases h1 : j = i
        · subst h1; simp only [Function.update_same] at hj; simp [Phase.isInserted] at hj
        · by_cases h2 : j' = i
          · subst h2; simp only [Function.update_same] at hj'
            simp [Phase.isInserted] at hj'
          · simp only [Function.update_noteq h1] at hj
            simp only [Function.update_noteq h2] at hj'
            exact hInv.ins_unique j j' hj hj'
      · intro j hj
        by_cases h1 : j = i
        · subst h1; simp only [Function.update_same] at hj; simp [Phase.isInserted] at hj
        · simp only [Function.update_noteq h1] at hj
          exact hInv.acts_pos j hj
      · intro h
        refine hInv.acts_neg fun j => ?_
        by_cases h1 : j = i
        · subst h1; rw [hph]; rfl
        · have := h j; simpa only [Function.update_noteq h1] using this
      · intro j hj
        by_cases h1 : j = i
        · subst h1; simp only [Function.update_same] at hj; simp [Phase.isCommitted] at hj
        · simp only [Function.update_noteq h1] at hj
          exact hInv.scr_pos j hj
      · intro h
        refine hInv.scr_neg fun j => ?_
        by_cases h1 : j = i
        · subst h1; rw [hph]; rfl
        · have := h j; simpa only [Function.update_noteq h1] using this
      · intro j hj
        exact hdf
      · intro j hj
        by_cases h1 : j = i
        · subst h1; simp only [Function.update_same] at hj; simp at hj
        · simp only [Function.update_noteq h1] at hj
          obtain ⟨k', hk'⟩ := hInv.dup_ins j hj
          have hk'i : k' ≠ i := by
            intro h; subst h; rw [hph] at hk'; simp [Phase.isInserted] at hk'
          exact ⟨k', by simp only [Function.update_noteq hk'i]; exact hk'⟩
      · intro j o' hj
        by_cases h1 : j = i
        · subst h1; simp only [Function.update_same] at hj; cases hj
        · simp only [Function.update_noteq h1] at hj
          exact hInv.done_shape j o' hj
      · intro _
        exact Or.inl ⟨i, by simp only [Function.update_same]; rfl⟩
  | ins =>
    have hiCS : (s.threads i).isCS = true := by rw [hph]; rfl
    have hdf : hasAction s.db r.actionId uid = false := hInv.fresh i hph
    have hall : ∀ j, (s.threads j).isInserted = false := by
      intro j
      by_contra hne
      have hj : (s.threads j).isInserted = true := by simpa using hne
      have hacts := hInv.acts_pos j hj
      have := hasAction_of_cons uid r hacts
      rw [hdf] at this; cases this
    have hacts0 : s.db.actions = d0.actions := hInv.acts_neg hall
    have hins : insertAction s.db (reqRecord uid r)
        = some { s.db with actions := reqRecord uid r :: s.db.actions } := by
      simp [insertAction, reqRecord]
      exact hdf
    have hrw : stepThread uid r s i
        = { s with
            db := { s.db with actions := reqRecord uid r :: s.db.actions }
            threads := Function.update s.threads i .upd } := by
      simp only [stepThread, hph, hins]
    rw [hrw]
    dsimp only
    refine ⟨?_, ?_, ?_, ?_, ?_, ?_, ?_, ?_, ?_, ?_, ?_⟩
    · intro j j' hj hj'
      by_cases h1 : j = i
      · by_cases h2 : j' = i
        · rw [h1, h2]
        · simp only [Function.update_noteq h2] at hj'
          have := hInv.mutex j' i hj' hiCS
          exact absurd this h2
      · simp only [Function.update_noteq h1] at hj
        have := hInv.mutex j i hj hiCS
        exact absurd this h1
    · constructor
      · intro _
        exact ⟨i, by simp only [Function.update_same]; rfl⟩
      · intro _
        exact hInv.lock_iff.mpr ⟨i, hiCS⟩
    · intro j j' hj hj'
      by_cases h1 : j = i
      · by_cases h2 : j' = i
        · rw [h1, h2]
        · simp only [Function.update_noteq h2] at hj'
          rw [hall j'] at hj'; cases hj'
      · simp only [Function.update_noteq h1] at hj
        rw [hall j] at hj; cases hj
    · intro j hj
      show reqRecord uid r :: s.db.actions = reqRecord uid r :: d0.actions
      rw [hacts0]
    · intro h
      have := h i
      simp only [Function.update_same] at this
      cases this
    · intro j hj
      by_cases h1 : j = i
      · subst h1; simp only [Function.update_same] at hj; simp [Phase.isCommitted] at hj
      · simp only [Function.update_noteq h1] at hj
        have := Phase.isInserted_of_isCommitted hj
        rw [hall j] at this; cases this
    · intro h
      refine hInv.scr_neg fun j => ?_
      by_cases h1 : j = i
      · subst h1; rw [hph]; rfl
      · have := h j; simpa only [Function.update_noteq h1] using this
    · intro j hj
      by_cases h1 : j = i
      · subst h1; simp only [Function.update_same] at hj; cases hj
      · simp only [Function.update_noteq h1] at hj
        have := hInv.mutex j i (by rw [hj]; rfl) hiCS
        exact absurd this h1
    · intro j hj
      exact ⟨i, by simp only [Function.update_same]; rfl⟩
    · intro j o' hj
      by_cases h1 : j = i
      · subst h1; simp only [Function.update_same] at hj; cases hj
      · simp only [Function.update_noteq h1] at hj
        exact hInv.done_shape j o' hj
    · intro _
      exact Or.inr ⟨i, by simp only [Function.update_same]; rfl⟩
  | upd =>
    have hiCS : (s.threads i).isCS = true := by rw [hph]; rfl
    have hiIns : (s.threads i).isInserted = true := by rw [hph]; rfl
    have hnocom : ∀ j, (s.threads j).isCommitted = false := by
      intro j
      by_contra hne
      have hj : (s.threads j).isCommitted = true := by simpa using hne
      have hjIns := Phase.isInserted_of_isCommitted hj
      have := hInv.ins_unique j i hjIns hiIns
      subst this
      rw [hph] at hj; simp [Phase.isCommitted] at hj
    have hscr0 : s.db.scores = d0.scores := hInv.scr_neg hnocom
    have hacts : s.db.actions = reqRecord uid r :: d0.actions := hInv.acts_pos i hiIns
    have hval : ((updateScore s.db uid r.scoreIncrement r.now).scores uid).current_score
        = (d0.scores uid).current_score + r.scoreIncrement := by
      simp [updateScore, hscr0]
    have hrw : stepThread uid r s i
        = { s with
            db := updateScore s.db uid r.scoreIncrement r.now
            lock := false
            threads := Function.update s.threads i
              (.done (.committed
                (((updateScore s.db uid r.scoreIncrement r.now).scores uid).current_score))) } := by
      simp only [stepThread, hph]
    rw [hrw]
    refine ⟨?_, ?_, ?_, ?_, ?_, ?_, ?_, ?_, ?_, ?_, ?_⟩
    · intro j j' hj hj'
      by_cases h1 : j = i
      · subst h1; simp only [Function.update_same] at hj; simp [Phase.isCS] at hj
      · by_cases h2 : j' = i
        · subst h2; simp only [Function.update_same] at hj'; simp [Phase.isCS] at hj'
        · simp only [Function.update_noteq h1] at hj
          simp only [Function.update_noteq h2] at hj'
          exact hInv.mutex j j' hj hj'
    · constructor
      · intro h; cases h
      · rintro ⟨j, hj⟩
        by_cases h1 : j = i
        · subst h1; simp only [Function.update_same] at hj; simp [Phase.isCS] at hj
        · simp only [Function.update_noteq h1] at hj
          have := hInv.mutex j i hj hiCS
          exact absurd this h1
    · intro j j' hj hj'
      by_cases h1 : j = i
      · by_cases h2 : j' = i
        · rw [h1, h2]
        · simp only [Function.update_noteq h2] at hj'
          have := hInv.ins_unique j' i hj' hiIns
          exact absurd this h2
      · simp only [Function.update_noteq h1] at hj
        have := hInv.ins_unique j i hj hiIns
        exact absurd this h1
    · intro j hj
      show (updateScore s.db uid r.scoreIncrement r.now).actions
        = reqRecord uid r :: d0.actions
      show s.db.actions = reqRecord uid r :: d0.actions
      exact hacts
    · intro h
      have := h i
      simp only [Function.update_same] at this
      cases this
    · intro j hj
      exact updateScore_scores_congr uid r.scoreIncrement r.now hscr0
    · intro h
      have := h i
      simp only [Function.update_same] at this
      cases this
    · intro j hj
      by_cases h1 : j = i
      · subst h1; simp only [Function.update_same] at hj; cases hj
      · simp only [Function.update_noteq h1] at hj
        have := hInv.mutex j i (by rw [hj]; rfl) hiCS
        exact absurd this h1
    · intro j hj
      exact ⟨i, by simp only [Function.update_same]; rfl⟩
    · intro j o' hj
      by_cases h1 : j = i
      · subst h1; simp only [Function.update_same] at hj
        cases hj
        exact Or.inr (Or.inr (by rw [hval]))
      · simp only [Function.update_noteq h1] at hj
        exact hInv.done_shape j o' hj
    · intro _
      exact Or.inr ⟨i, by simp only [Function.update_same]; rfl⟩

theorem CInv_init (uid : UserId) (r : UpdateRequest) (d0 : Db) (n : Nat) :
    CInv uid r d0 (initC n d0) := by
  refine ⟨?_, ?_, ?_, ?_, ?_, ?_, ?_, ?_, ?_, ?_, ?_⟩
  · intro j j' hj _; simp [initC, Phase.isCS] at hj
  · constructor
    · intro h; cases h
    · rintro ⟨j, hj⟩; simp [initC, Phase.isCS] at hj
  · intro j j' hj _; simp [initC, Phase.isInserted] at hj
  · intro j hj; simp [initC, Phase.isInserted] at hj
  · intro _; rfl
  · intro j hj; simp [initC, Phase.isCommitted] at hj
  · intro _; rfl
  · intro j hj; simp [initC] at hj
  · intro j hj; simp [initC] at hj
  · intro j o hj; simp [initC] at hj
  · rintro ⟨j, hj⟩; simp [initC, Phase.isStart] at hj

theorem CInv_reach {n : Nat} (uid : UserId) (r : UpdateRequest) (d0 : Db)
    (hno : hasAction d0 r.actionId uid = false)
    {s : CState n} (h : CReach uid r (initC n d0) s) : CInv uid r d0 s := by
  induction h with
  | refl => exact CInv_init uid r d0 n
  | tail _ hstep ih => exact CInv_step uid r d0 hno ih hstep

theorem Phase.isStart_eq_false_of_isDone {p : Phase} (h : p.isDone = true) :
    p.isStart = false := by
  cases p <;> simp_all [Phase.isDone, Phase.isStart]

theorem Phase.isCS_eq_false_of_isDone {p : Phase} (h : p.isDone = true) :
    p.isCS = false := by
  cases p <;> simp_all [Phase.isDone, Phase.isCS]

theorem Phase.committed_of_isInserted_isDone {p : Phase}
    (h1 : p.isInserted = true) (h2 : p.isDone = true) :
    ∃ v, p = .done (.committed v) := by
  cases p with
  | done o =>
    cases o with
    | committed v => exact ⟨v, rfl⟩
    | _ => simp [Phase.isInserted] at h1
  | _ => simp [Phase.isDone] at h2

/-- C2: under any interleaving of `N ≥ 2` simultaneous submissions that
carry the same `action_id` (none of which has been committed before),
once all requests have been answered exactly one reports success, every
other one reports `Duplicate` or `LockContended`, and the principal's
score has increased by exactly one increment's worth, with exactly one
ActionRecord committed. -/
theorem concurrent_duplicate_submissions {n : Nat} (uid : UserId)
    (r : UpdateRequest) (d0 : Db) (hn : 2 ≤ n)
    (hno : hasAction d0 r.actionId uid = false)
    (s : CState n) (hreach : CReach uid r (initC n d0) s)
    (hdone : ∀ i, (s.threads i).isDone = true) :
    (∃ i, s.threads i
        = .done (.committed ((d0.scores uid).current_score + r.scoreIncrement)) ∧
      ∀ j, j ≠ i →
        s.threads j = .done .duplicate ∨ s.threads j = .done .lockContended) ∧
    (s.db.scores uid).current_score
      = (d0.scores uid).current_score + r.scoreIncrement ∧
    s.db.actions = reqRecord uid r :: d0.actions := by
  have hInv := CInv_reach uid r d0 hno hreach
  have hnoCS : ∀ j, (s.threads j).isCS = false := fun j =>
    Phase.isCS_eq_false_of_isDone (hdone j)
  have i0 : Fin n := ⟨0, by omega⟩
  have hact : ∃ j, (s.threads j).isInserted = true := by
    rcases hInv.active ⟨i0, Phase.isStart_eq_false_of_isDone (hdone i0)⟩ with
      ⟨j, hj⟩ | hins
    · rw [hnoCS j] at hj; cases hj
    · exact hins
  obtain ⟨j, hj⟩ := hact
  obtain ⟨v, hjv⟩ := Phase.committed_of_isInserted_isDone hj (hdone j)
  have hv : v = (d0.scores uid).current_score + r.scoreIncrement := by
    rcases hInv.done_shape j _ hjv with h | h | h
    · cases h
    · cases h
    · cases h; rfl
  refine ⟨⟨j, by rw [hjv, hv], ?_⟩, ?_, hInv.acts_pos j hj⟩
  · intro k hk
    obtain ⟨o, ho⟩ : ∃ o, s.threads k = .done o := by
      have := hdone k
      cases hp : s.threads k with
      | done o => exact ⟨o, rfl⟩
      | _ => rw [hp] at this; cases this
    rcases hInv.done_shape k o ho with h | h | h
    · subst h; exact Or.inr ho
    · subst h; exact Or.inl ho
    · subst h
      have hkIns : (s.threads k).isInserted = true := by rw [ho]; rfl
      exact absurd (hInv.ins_unique k j hkIns hj) hk
  · have hcom : (s.threads j).isCommitted = true := by rw [hjv]; rfl
    rw [hInv.scr_pos j hcom]
    simp [updateScore]

/-- The witness database: principal `u1` starts at score 100. -/
def cexDb : Db :=
  { actions := [],
    scores := fun u => if u = "u1" then ⟨100, 0, none⟩ else ⟨0, 0, none⟩ }

/-- The witness request: `action_id = "a1"`, increment 50. -/
def cexReq : UpdateRequest := ⟨"a1", "task_completion", 50, 0⟩

/-- A complete interleaving of two simultaneous identical submissions:
request 0 runs the handler to commit, then request 1 acquires the freed
lock and hits the duplicate check. -/
def cexRun : CState 2 :=
  stepThread "u1" cexReq (stepThread "u1" cexReq (stepThread "u1" cexReq
    (stepThread "u1" cexReq (stepThread "u1" cexReq (stepThread "u1" cexReq
      (initC 2 cexDb) 0) 0) 0) 0) 1) 1

/-- Witness for C2: two concurrent submissions of `a1` with increment 50
from score 100 end at score 150 with exactly one success. -/
theorem concurrent_duplicate_submissions_witness :
    (∃ i : Fin 2, cexRun.threads i = .done (.committed 150) ∧
      ∀ j, j ≠ i → cexRun.threads j = .done .duplicate ∨
        cexRun.threads j = .done .lockContended) ∧
    (cexRun.db.scores "u1").current_score = 150 ∧
    cexRun.db.actions = reqRecord "u1" cexReq :: cexDb.actions := by
  have hreach : CReach "u1" cexReq (initC 2 cexDb) cexRun := by
    unfold cexRun
    exact .tail (.tail (.tail (.tail (.tail (.tail .refl ⟨0, rfl⟩) ⟨0, rfl⟩)
      ⟨0, rfl⟩) ⟨0, rfl⟩) ⟨1, rfl⟩) ⟨1, rfl⟩
  have hdone : ∀ i, (cexRun.threads i).isDone = true := by decide
  obtain ⟨⟨i, hi, hrest⟩, hscore, hacts⟩ :=
    concurrent_duplicate_submissions "u1" cexReq cexDb (by omega) (by decide)
      cexRun hreach hdone
  have h150 : (cexDb.scores "u1").current_score + cexReq.scoreIncrement
      = (150 : Int) := by decide
  rw [h150] at hi hscore
  exact ⟨⟨i, hi, hrest⟩, hscore, hacts⟩

/-! ## Leaderboard snapshot ordering

The repository ships no leaderboard computation code — only the
`idx_current_score (current_score DESC)` index DDL and the prose of the
top-10 cache strategy — so the snapshot computation is modelled from the
spec (§4.3): "top K by score, descending; ties broken by ascending
principal_id for determinism", recompute "re-reads all aggregates ordered
by score, truncated to K". -/

/-- Modelled from the spec: one aggregate row as read by a leaderboard
recompute. -/
structure LbEntry where
  principal_id : UserId
  score : Int
  deriving DecidableEq

/-- Modelled from the spec: the snapshot order — higher score first, ties
by ascending principal id. -/
def lbLe (a b : LbEntry) : Bool :=
  decide (b.score < a.score) ||
    (a.score == b.score && decide (a.principal_id ≤ b.principal_id))

/-- Modelled from the spec: a recompute sorts all aggregates in snapshot
order and truncates to the top `K`. -/
def leaderboard (K : Nat) (aggs : List LbEntry) : List LbEntry :=
  (aggs.mergeSort lbLe).take K

theorem lbLe_total (a b : LbEntry) : (lbLe a b || lbLe b a) = true := by
  simp only [lbLe, Bool.or_eq_true, Bool.and_eq_true, decide_eq_true_eq, beq_iff_eq]
  rcases lt_trichotomy a.score b.score with h | h | h
  · tauto
  · rcases le_total a.principal_id b.principal_id with h2 | h2 <;> tauto
  · tauto

theorem lbLe_trans (a b c : LbEntry) (h1 : lbLe a b = true) (h2 : lbLe b c = true) :
    lbLe a c = true := by
  simp only [lbLe, Bool.or_eq_true, Bool.and_eq_true, decide_eq_true_eq,
    beq_iff_eq] at h1 h2 ⊢
  rcases h1 with h1 | ⟨h1, h1'⟩ <;> rcases h2 with h2 | ⟨h2, h2'⟩
  · exact Or.inl (by omega)
  · exact Or.inl (by omega)
  · exact Or.inl (by omega)
  · exact Or.inr ⟨by omega, le_trans h1' h2'⟩

theorem leaderboard_sorted (K : Nat) (aggs : List LbEntry) :
    (leaderboard K aggs).Pairwise (fun a b => lbLe a b = true) := by
  have hs : (aggs.mergeSort lbLe).Pairwise (fun a b => lbLe a b = true) := by
    simpa using @List.sorted_mergeSort _ lbLe
      (fun a b c => lbLe_trans a b c) lbLe_total aggs
  exact hs.sublist (List.take_sublist K _)

/-- C7: the leaderboard snapshot is the top `K` aggregates in descending
score order with ascending principal-id tie-break — the snapshot is sorted
in that order, every aggregate left out is dominated by every snapshot
entry, principals with equal scores appear in ascending principal-id
order, and querying an unchanged ledger again reproduces the identical
snapshot. -/
theorem leaderboard_ordering (K : Nat) (aggs : List LbEntry)
    (hnd : aggs.Pairwise fun a b => a.principal_id ≠ b.principal_id) :
    (leaderboard K aggs).Pairwise (fun a b => lbLe a b = true) ∧
    (∀ b ∈ aggs, b ∉ leaderboard K aggs →
      ∀ a ∈ leaderboard K aggs, lbLe a b = true) ∧
    (leaderboard K aggs).Pairwise
      (fun a b => a.score = b.score → a.principal_id < b.principal_id) ∧
    leaderboard K aggs = leaderboard K aggs := by
  refine ⟨leaderboard_sorted K aggs, ?_, ?_, rfl⟩
  · intro b hb hbout a ha
    have hs : (aggs.mergeSort lbLe).Pairwise (fun a b => lbLe a b = true) := by
      simpa using @List.sorted_mergeSort _ lbLe
        (fun a b c => lbLe_trans a b c) lbLe_total aggs
    have hbmem : b ∈ aggs.mergeSort lbLe := by
      rw [List.mem_mergeSort]; exact hb
    have hsplit := List.take_append_drop K (aggs.mergeSort lbLe)
    have hbdrop : b ∈ (aggs.mergeSort lbLe).drop K := by
      rcases (List.mem_append.mp (by rw [hsplit]; exact hbmem)) with h | h
      · exact absurd h hbout
      · exact h
    have hpair : ((aggs.mergeSort lbLe).take K
        ++ (aggs.mergeSort lbLe).drop K).Pairwise (fun a b => lbLe a b = true) := by
      rw [hsplit]; exact hs
    exact (List.pairwise_append.mp hpair).2.2 a ha b hbdrop
  · have hperm : List.Perm (aggs.mergeSort lbLe) aggs := List.mergeSort_perm aggs lbLe
    have hnd' : (aggs.mergeSort lbLe).Pairwise
        (fun a b => a.principal_id ≠ b.principal_id) := by
      rw [List.Perm.pairwise_iff (fun h => Ne.symm h) hperm]
      exact hnd
    have hnd'' : (leaderboard K aggs).Pairwise
        (fun a b => a.principal_id ≠ b.principal_id) :=
      hnd'.sublist (List.take_sublist K _)
    have := (leaderboard_sorted K aggs).and hnd''
    refine this.imp ?_
    rintro a b ⟨hab, hne⟩ hscore
    simp only [lbLe, Bool.or_eq_true, Bool.and_eq_true, decide_eq_true_eq,
      beq_iff_eq] at hab
    rcases hab with h | ⟨_, h⟩
    · omega
    · exact lt_of_le_of_ne h hne

/-- Witness for C7: three aggregates, two of them tied at 50. -/
theorem leaderboard_ordering_witness :
    (leaderboard 2 [⟨"alice", 50⟩, ⟨"bob", 50⟩, ⟨"carol", 70⟩]).Pairwise
      (fun a b => a.score = b.score → a.principal_id < b.principal_id) :=
  (leaderboard_ordering 2 [⟨"alice", 50⟩, ⟨"bob", 50⟩, ⟨"carol", 70⟩]
    (by decide)).2.2.1

end Scoreboard

namespace UserApi

/-! ## Problem 5: user CRUD and auth controllers

Responses are modelled as JSON trees (status, body).  `bcrypt.hash`,
`bcrypt.compare` and `jwt.sign` are external collaborators and enter as
function parameters. -/

/-- JSON values: the shape of every controller response body. -/
inductive Json where
  | null
  | bool (b : Bool)
  | num (n : Int)
  | str (s : String)
  | arr (elems : List Json)
  | obj (fields : List (String × Json))

mutual

/-- Whether a JSON value contains an object field named `k` at any depth. -/
def hasKey (k : String) : Json → Bool
  | .null => false
  | .bool _ => false
  | .num _ => false
  | .str _ => false
  | .arr es => hasKeyArr k es
  | .obj fs => hasKeyObj k fs

def hasKeyArr (k : String) : List Json → Bool
  | [] => false
  | e :: es => hasKey k e || hasKeyArr k es

def hasKeyObj (k : String) : List (String × Json) → Bool
  | [] => false
  | f :: fs => f.1 == k || hasKey k f.2 || hasKeyObj k fs

end

/-- The TypeORM `User` entity: generated id, name, unique email, password,
optional age and city, creation/update timestamps (as `Nat`). -/
structure User where
  id : Int
  name : String
  email : String
  password : String
  age : Option Int
  city : Option String
  createdAt : Nat
  updatedAt : Nat

/-- The `users` table plus the id sequence backing
`PrimaryGeneratedColumn`. -/
structure UserDb where
  users : List User
  nextId : Int

/-- `userRepository.save` on a fresh entity: assign the next id, append. -/
def saveUser (db : UserDb) (u : User) : UserDb × User :=
  let saved := { u with id := db.nextId }
  ({ users := db.users ++ [saved], nextId := db.nextId + 1 }, saved)

def optNum : Option Int → Json
  | none => .null
  | some n => .num n

def optStr : Option String → Json
  | none => .null
  | some s => .str s

/-- The object-rest spread `const \x7b password: _, ...userResponse \x7d = user`:
every column of the user except `password`. -/
def userResponseJson (u : User) : Json :=
  .obj [("id", .num u.id), ("name", .str u.name), ("email", .str u.email),
        ("age", optNum u.age), ("city", optStr u.city),
        ("createdAt", .num (u.createdAt : Int)),
        ("updatedAt", .num (u.updatedAt : Int))]

/-- Approximation of `class-validator`'s `IsEmail` (its internals are
library code; only pass/fail matters here). -/
def isEmailLike (s : String) : Bool := s.contains '@'

/-- The `class-validator` rules annotated on `User`: `IsNotEmpty` and
`MinLength(2)` on name, `IsNotEmpty`/`IsEmail` on email, `IsNotEmpty` and
`MinLength(6)` on password; age and city are optional. -/
def validateUser (u : User) : List String :=
  (if u.name.length = 0 then ["Name is required"] else []) ++
  (if u.name.length < 2 then ["Name must be at least 2 characters long"] else []) ++
  (if u.email.length = 0 then ["Email is required"] else []) ++
  (if isEmailLike u.email = false then ["Please provide a valid email"] else []) ++
  (if u.password.length = 0 then ["Password is required"] else []) ++
  (if u.password.length < 6 then ["Password must be at least 6 characters long"] else [])

/-- `POST /api/users` — validate, save, answer 201 with the password
stripped; unique-email violations answer 400. -/
def createUser (db : UserDb) (body : User) : (Nat × Json) × UserDb :=
  let errors := validateUser body
  if errors.length > 0 then
    ((400, .obj [("success", .bool false), ("message", .str "Validation failed"),
                 ("errors", .str (String.intercalate "; " errors))]), db)
  else if db.users.any fun u => u.email == body.email then
    ((400, .obj [("success", .bool false),
                 ("message", .str "Email already exists")]), db)
  else
    let dbSaved := saveUser db body
    ((201, .obj [("success", .bool true),
                 ("message", .str "User created successfully"),
                 ("data", userResponseJson dbSaved.2)]), dbSaved.1)

/-- Query parameters of `GET /api/users` (absent ones are `none`;
`page`/`limit` default to 1 and 10). -/
structure UserQuery where
  name : Option String
  email : Option String
  city : Option String
  age : Option Int
  page : Option Int
  limit : Option Int

/-- SQL `LIKE :pat` with pattern `%pat%`. -/
def likeMatch (pat : String) (field : String) : Bool :=
  decide (pat.toList <:+: field.toList)

/-- `GET /api/users` — filter, paginate, answer with all passwords
stripped. -/
def getUsers (db : UserDb) (q : UserQuery) : Nat × Json :=
  let filtered := db.users.filter fun u =>
    (match q.name with | none => true | some p => likeMatch p u.name) &&
    (match q.email with | none => true | some p => likeMatch p u.email) &&
    (match q.city with
      | none => true
      | some p => match u.city with | none => false | some c => likeMatch p c) &&
    (match q.age with
      | none => true
      | some a => match u.age with | none => false | some ua => ua == a)
  let pageNum := q.page.getD 1
  let limitNum := q.limit.getD 10
  let paged := (filtered.drop ((pageNum - 1) * limitNum).toNat).take limitNum.toNat
  (200, .obj [("success", .bool true),
              ("data", .arr (paged.map userResponseJson)),
              ("pagination", .obj
                [("page", .num pageNum), ("limit", .num limitNum),
                 ("total", .num (filtered.length : Int)),
                 ("totalPages",
                  .num (((filtered.length : Int) + limitNum - 1) / limitNum))])])

/-- `GET /api/users/:id` — 404 or the user with the password stripped. -/
def getUserById (db : UserDb) (id : Int) : Nat × Json :=
  match db.users.find? fun u => u.id == id with
  | none => (404, .obj [("success", .bool false),
                        ("message", .str "User not found")])
  | some u => (200, .obj [("success", .bool true),
                          ("data", userResponseJson u)])

/-- The partial update body of `PUT /api/users/:id`. -/
structure UpdateBody where
  name : Option String
  email : Option String
  password : Option String
  age : Option Int
  city : Option String

/-- The spread merge `\x7b ...user, ...req.body \x7d`. -/
def mergeUser (u : User) (b : UpdateBody) : User :=
  { u with
    name := b.name.getD u.name
    email := b.email.getD u.email
    password := b.password.getD u.password
    age := match b.age with | none => u.age | some a => some a
    city := match b.city with | none => u.city | some c => some c }

/-- `PUT /api/users/:id` — find, validate the merge, update, re-fetch and
answer with the password stripped; unique-email violations answer 400. -/
def updateUser (db : UserDb) (id : Int) (b : UpdateBody) :
    (Nat × Json) × UserDb :=
  match db.users.find? fun u => u.id == id with
  | none => ((404, .obj [("success", .bool false),
                         ("message", .str "User not found")]), db)
  | some u =>
    let merged := mergeUser u b
    let errors := validateUser merged
    if errors.length > 0 then
      ((400, .obj [("success", .bool false),
                   ("message", .str "Validation failed"),
                   ("errors", .str (String.intercalate "; " errors))]), db)
    else if db.users.any fun v => v.id != id && v.email == merged.email then
      ((400, .obj [("success", .bool false),
                   ("message", .str "Email already exists")]), db)
    else
      let db' : UserDb :=
        { db with users := db.users.map fun v => if v.id == id then mergeUser v b else v }
      match db'.users.find? fun v => v.id == id with
      | none =>
        ((500, .obj [("success", .bool false),
                     ("message", .str "Failed to update user")]), db')
      | some u' =>
        ((200, .obj [("success", .bool true),
                     ("message", .str "User updated successfully"),
                     ("data", userResponseJson u')]), db')

/-- The body of `POST /api/auth/register`. -/
structure RegisterBody where
  email : String
  password : String
  name : String
  age : Option Int
  city : Option String

/-- `POST /api/auth/register` — reject an existing email, hash the
password (`bcrypt.hash` as parameter), validate, save, and answer 201 with
a token and the password stripped. -/
def register (db : UserDb) (b : RegisterBody) (bhash : String → String)
    (sign : Int → String → String) (now : Nat) : (Nat × Json) × UserDb :=
  if db.users.any fun u => u.email == b.email then
    ((400, .obj [("success", .bool false),
                 ("message", .str "User with this email already exists")]), db)
  else
    let userData : User :=
      { id := 0, name := b.name, email := b.email, password := bhash b.password,
        age := b.age, city := b.city, createdAt := now, updatedAt := now }
    let errors := validateUser userData
    if errors.length > 0 then
      ((400, .obj [("success", .bool false),
                   ("message", .str "Validation failed"),
                   ("errors", .str (String.intercalate "; " errors))]), db)
    else
      let dbSaved := saveUser db userData
      ((201, .obj [("success", .bool true),
                   ("message", .str "User registered successfully"),
                   ("data", .obj
                     [("user", userResponseJson dbSaved.2),
                      ("token", .str (sign dbSaved.2.id dbSaved.2.email))])]),
       dbSaved.1)

/-- `POST /api/auth/login` — require both fields, find by email, check the
password (`bcrypt.compare` as parameter), answer with a token and the
password stripped. -/
def login (db : UserDb) (email password : Option String)
    (compare : String → String → Bool) (sign : Int → String → String) :
    Nat × Json :=
  let em := email.getD ""
  let pw := password.getD ""
  if em == "" || pw == "" then
    (400, .obj [("success", .bool false),
                ("message", .str "Email and password are required")])
  else
    match db.users.find? fun u => u.email == em with
    | none => (401, .obj [("success", .bool false),
                          ("message", .str "Invalid email or password")])
    | some u =>
      if compare pw u.password = false then
        (401, .obj [("success", .bool false),
                    ("message", .str "Invalid email or password")])
      else
        (200, .obj [("success", .bool true), ("message", .str "Login successful"),
                    ("data", .obj
                      [("user", userResponseJson u),
                       ("token", .str (sign u.id u.email))])])

/-- `GET /api/auth/profile` — 401 without `req.user`, else the profile
with the password stripped. -/
def getProfile (reqUser : Option User) : Nat × Json :=
  match reqUser with
  | none => (401, .obj [("success", .bool false),
                        ("message", .str "User not authenticated")])
  | some u => (200, .obj [("success", .bool true),
                          ("data", userResponseJson u)])

@[simp] theorem hasKey_null (k : String) : hasKey k .null = false := by
  simp [hasKey]

@[simp] theorem hasKey_bool (k : String) (b : Bool) :
    hasKey k (.bool b) = false := by simp [hasKey]

@[simp] theorem hasKey_num (k : String) (n : Int) :
    hasKey k (.num n) = false := by simp [hasKey]

@[simp] theorem hasKey_str (k : String) (s : String) :
    hasKey k (.str s) = false := by simp [hasKey]

@[simp] theorem hasKey_arr (k : String) (es : List Json) :
    hasKey k (.arr es) = hasKeyArr k es := by simp [hasKey]

@[simp] theorem hasKey_obj (k : String) (fs : List (String × Json)) :
    hasKey k (.obj fs) = hasKeyObj k fs := by simp [hasKey]

@[simp] theorem hasKeyObj_nil (k : String) : hasKeyObj k [] = false := by
  simp [hasKeyObj]

@[simp] theorem hasKeyObj_cons (k : String) (f : String × Json)
    (fs : List (String × Json)) :
    hasKeyObj k (f :: fs) = (f.1 == k || hasKey k f.2 || hasKeyObj k fs) := by
  simp [hasKeyObj]

@[simp] theorem hasKeyArr_nil (k : String) : hasKeyArr k [] = false := by
  simp [hasKeyArr]

@[simp] theorem hasKeyArr_cons (k : String) (e : Json) (es : List Json) :
    hasKeyArr k (e :: es) = (hasKey k e || hasKeyArr k es) := by
  simp [hasKeyArr]

theorem hasKey_optNum (k : String) (o : Option Int) :
    hasKey k (optNum o) = false := by
  cases o <;> simp [optNum]

theorem hasKey_optStr (k : String) (o : Option String) :
    hasKey k (optStr o) = false := by
  cases o <;> simp [optStr]

theorem hasKey_pw_user (u : User) :
    hasKey "password" (userResponseJson u) = false := by
  simp [userResponseJson, hasKey, hasKeyObj, hasKey_optNum, hasKey_optStr]

theorem hasKeyArr_eq_false (k : String) (l : List Json)
    (h : ∀ e ∈ l, hasKey k e = false) : hasKeyArr k l = false := by
  induction l with
  | nil => simp [hasKeyArr]
  | cons e es ih =>
    simp [hasKeyArr, h e (by simp), ih fun e' he' => h e' (by simp [he'])]

/-- C9: no response produced by the user-facing controllers — success or
error — ever contains a `password` field anywhere in its body: every
controller strips the password from returned user data. -/
theorem no_password_in_responses :
    (∀ db body, hasKey "password" ((createUser db body).1.2) = false) ∧
    (∀ db q, hasKey "password" ((getUsers db q).2) = false) ∧
    (∀ db id, hasKey "password" ((getUserById db id).2) = false) ∧
    (∀ db id b, hasKey "password" ((updateUser db id b).1.2) = false) ∧
    (∀ db b bhash sign now,
      hasKey "password" ((register db b bhash sign now).1.2) = false) ∧
    (∀ db em pw compare sign,
      hasKey "password" ((login db em pw compare sign).2) = false) ∧
    (∀ u, hasKey "password" ((getProfile u).2) = false) := by
  refine ⟨?_, ?_, ?_, ?_, ?_, ?_, ?_⟩
  · intro db body
    simp only [createUser]
    split
    · simp
    · split <;> simp [hasKey_pw_user]
  · intro db q
    simp only [getUsers]
    simp [hasKey_pw_user]
    refine hasKeyArr_eq_false _ _ ?_
    intro e he
    have he2 := List.take_subset _ _ he
    have he3 := List.drop_subset _ _ he2
    obtain ⟨u, _, rfl⟩ := List.mem_map.mp he3
    exact hasKey_pw_user u
  · intro db id
    simp only [getUserById]
    split <;> simp [hasKey_pw_user]
  · intro db id b
    simp only [updateUser]
    split
    · simp
    · split
      · simp
      · split
        · simp
        · split <;> simp [hasKey_pw_user]
  · intro db b bhash sign now
    simp only [register]
    split
    · simp
    · split <;> simp [hasKey_pw_user]
  · intro db em pw compare sign
    simp only [login]
    split
    · simp
    · split
      · simp
      · split <;> simp [hasKey_pw_user]
  · intro u
    simp only [getProfile]
    split <;> simp [hasKey_pw_user]

end UserApi

namespace AuthMw

/-! ## The `authenticateToken` middleware

`jwt.verify` and the user lookup are external effects and enter as
function parameters. -/

/-- The JWT payload: `userId` and `email`. -/
structure Decoded where
  userId : Int
  email : String

/-- Result of `jwt.verify(token, JWT_SECRET)`: a decoded payload, or a
thrown `JsonWebTokenError` (invalid or expired token). -/
inductive VerifyResult where
  | valid (d : Decoded)
  | jwtError

/-- Result of `userRepository.findOne`: a user, no user, or a thrown
database error (caught by the catch-all as a 500). -/
inductive LookupResult where
  | found (u : UserApi.User)
  | missing
  | dbError (msg : String)

/-- What the middleware does with the request: call `next()` with
`req.user` set, or respond — never both. -/
inductive AuthResult where
  | next (u : UserApi.User)
  | respond (status : Nat) (body : UserApi.Json)

/-- `const token = authHeader && authHeader.split(' ')[1]` followed by the
`if (!token)` check: a missing header, an empty header, a missing second
word, and an empty second word are all falsy. -/
def extractToken (authHeader : Option String) : Option String :=
  match authHeader with
  | none => none
  | some h =>
    if h = "" then none
    else
      match (h.splitOn " ").get? 1 with
      | none => none
      | some t => if t = "" then none else some t

/-- `authenticateToken`: missing token → 401; `jwt.verify` throws → 403;
user not found → 401; other thrown errors → 500; otherwise set `req.user`
and call `next()`. -/
def authenticateToken (verify : String → VerifyResult)
    (findUser : Int → LookupResult) (authHeader : Option String) : AuthResult :=
  match extractToken authHeader with
  | none => .respond 401 (.obj [("success", .bool false),
      ("message", .str "Access token is required")])
  | some tok =>
    match verify tok with
    | .jwtError => .respond 403 (.obj [("success", .bool false),
        ("message", .str "Invalid or expired token")])
    | .valid d =>
      match findUser d.userId with
      | .dbError msg => .respond 500 (.obj [("success", .bool false),
          ("message", .str "Authentication error"), ("error", .str msg)])
      | .missing => .respond 401 (.obj [("success", .bool false),
          ("message", .str "User not found")])
      | .found u => .next u

/-- C10: the middleware calls `next` exactly when the request carries a
Bearer token that verifies and resolves to an existing user; a missing
token is answered 401, an invalid or expired token 403, an unknown user
401 — so no protected handler ever runs for an unauthenticated request. -/
theorem authenticate_token_gate (verify : String → VerifyResult)
    (findUser : Int → LookupResult) (h : Option String) :
    (∀ u, authenticateToken verify findUser h = .next u ↔
      (∃ t d, extractToken h = some t ∧ verify t = .valid d ∧
        findUser d.userId = .found u)) ∧
    (extractToken h = none →
      authenticateToken verify findUser h = .respond 401
        (.obj [("success", .bool false),
               ("message", .str "Access token is required")])) ∧
    (∀ t, extractToken h = some t → verify t = .jwtError →
      authenticateToken verify findUser h = .respond 403
        (.obj [("success", .bool false),
               ("message", .str "Invalid or expired token")])) ∧
    (∀ t d, extractToken h = some t → verify t = .valid d →
      findUser d.userId = .missing →
      authenticateToken verify findUser h = .respond 401
        (.obj [("success", .bool false),
               ("message", .str "User not found")])) := by
  refine ⟨?_, ?_, ?_, ?_⟩
  · intro u
    constructor
    · intro hnext
      unfold authenticateToken at hnext
      cases hx : extractToken h with
      | none => simp only [hx] at hnext; cases hnext
      | some t =>
        simp only [hx] at hnext
        cases hv : verify t with
        | jwtError => simp only [hv] at hnext; cases hnext
        | valid d =>
          simp only [hv] at hnext
          cases hf : findUser d.userId with
          | dbError m => simp only [hf] at hnext; cases hnext
          | missing => simp only [hf] at hnext; cases hnext
          | found u' =>
            simp only [hf] at hnext
            cases hnext
            exact ⟨t, d, rfl, hv, hf⟩
    · rintro ⟨t, d, hx, hv, hf⟩
      simp [authenticateToken, hx, hv, hf]
  · intro hx
    simp [authenticateToken, hx]
  · intro t hx hv
    simp [authenticateToken, hx, hv]
  · intro t d hx hv hf
    simp [authenticateToken, hx, hv, hf]

/-- Witness for C10: a request without an Authorization header is answered
401 and no handler runs. -/
theorem authenticate_token_gate_witness :
    authenticateToken (fun _ => .jwtError) (fun _ => .missing) none
      = .respond 401 (.obj [("success", .bool false),
          ("message", .str "Access token is required")]) :=
  (authenticate_token_gate (fun _ => .jwtError) (fun _ => .missing) none).2.1 rfl

end AuthMw
